import Mathlib

/-!
Verification development for `game.js`: a commit-reveal rock-paper-scissors
generalization. The JavaScript source is shallowly embedded below.

Conventions of the embedding:
* JavaScript `Array.prototype.indexOf` returns -1 on a missing element, so the
  embedding `jsIndexOf` returns an `Int`.
* JavaScript `%` is the truncated remainder; on integers it is `Int.tmod`
  (all reachable uses here have a nonzero right operand).
* `Math.floor` of a real division by 2 is `Int.fdiv _ 2`.
* `HelpTableGenerator.determineResult` computes `(n - 1) / 2` as exact
  (floating-point) division, without `Math.floor`; it is embedded over `ℚ`,
  with `jsModQ` the truncated remainder on rationals.
* The HMAC-SHA256 primitive and the random draws (`crypto.randomBytes`,
  `Math.random`) are external effects: the hash is an abstract function
  carried as a field `hmacFn`, and each random draw is an explicit input of
  the operation that performs it.
-/

/-- `moves.indexOf(x)` in JavaScript: the index of `x`, or -1 when absent. -/
def jsIndexOf (l : List String) (x : String) : Int :=
  if x ∈ l then (l.indexOf x : Int) else -1

/-- `MoveRules.determineWinner(userMove, computerMove)` from `game.js`. -/
def determineWinner (moves : List String) (userMove computerMove : String) : String :=
  let n : Int := moves.length
  let half : Int := (n - 1).fdiv 2
  let index : Int := jsIndexOf moves userMove
  let moveIndex : Int := jsIndexOf moves computerMove
  if userMove = computerMove then
    "Draw"
  else if (index + 1 ≤ moveIndex ∧ moveIndex ≤ index + half) ∨
      (n ≤ index + half ∧ moveIndex ≤ (index + half).tmod n) then
    "Computer wins!"
  else
    "You win!"

/-- JavaScript number truncation toward zero (`Math.trunc`, the integer part
used by the `%` operator). -/
def jsTrunc (q : ℚ) : Int :=
  if 0 ≤ q then ⌊q⌋ else ⌈q⌉

/-- JavaScript `%` (truncated remainder) on rationals, for a nonzero divisor. -/
def jsModQ (a b : ℚ) : ℚ :=
  a - b * jsTrunc (a / b)

/-- `HelpTableGenerator.determineResult(move1, move2)` from `game.js`.
Its `half` is `(this.moves.length - 1) / 2` without `Math.floor`, hence the
embedding over `ℚ`. -/
def determineResult (moves : List String) (move1 move2 : String) : String :=
  let n : ℚ := moves.length
  let half : ℚ := (n - 1) / 2
  let index : ℚ := (jsIndexOf moves move1 : ℚ)
  let moveIndex : ℚ := (jsIndexOf moves move2 : ℚ)
  if move1 = move2 then
    "Draw"
  else if (index + 1 ≤ moveIndex ∧ moveIndex ≤ index + half) ∨
      (n ≤ index + half ∧ moveIndex ≤ jsModQ (index + half) n) then
    "Lose"
  else
    "Win"

/-- The mutable state of the `Game` class: the move list, the abstracted
HMAC-SHA256 primitive, and the two fields assigned in the constructor and in
`play` (`this.hmacKey`, `this.computerMove`). -/
structure Game where
  moves : List String
  hmacFn : String → String → String
  hmacKey : String
  computerMove : String

/-- The `Game` constructor: stores the moves, draws a key (`generateKey`, the
random draw is the explicit input `key`) and a computer move
(`this.moves[Math.floor(Math.random() * this.moves.length)]`, the drawn index
is the explicit input `draw`). -/
def Game.init (hmacFn : String → String → String) (moves : List String)
    (key : String) (draw : Nat) : Game :=
  { moves := moves, hmacFn := hmacFn, hmacKey := key,
    computerMove := moves.getD draw "" }

/-- `Game.prototype.generateHmac(move)`: HMAC of `move` under the stored key. -/
def Game.generateHmac (g : Game) (move : String) : String :=
  g.hmacFn g.hmacKey move

/-- `Game.prototype.isMoveValid(move)`: `this.moves.includes(move)`. -/
def Game.isMoveValid (g : Game) (move : String) : Bool :=
  g.moves.contains move

/-- The HMAC line printed by `Game.prototype.showMenu`:
`HMAC: ${this.generateHmac(this.computerMove)}`. -/
def Game.menuHmac (g : Game) : String :=
  g.generateHmac g.computerMove

/-- The values printed when `play` resolves a round: the HMAC line, the result
string, and the disclosed computer move and HMAC key. -/
structure Resolution where
  hmacShown : String
  result : String
  computerMove : String
  hmacKey : String
deriving DecidableEq

/-- `Game.prototype.play(userMove)` from `game.js`. The re-drawn computer move
(`this.computerMove = this.moves[Math.floor(Math.random() * ...)]`, executed
before the validity check) is the explicit input `redraw`. Returns the updated
state and, when the submission is valid, the resolution output; `none` means
the invalid-move branch (message plus `showMenu`) was taken. -/
def Game.play (g : Game) (userMove : String) (redraw : Nat) :
    Game × Option Resolution :=
  let g2 : Game := { g with computerMove := g.moves.getD redraw "" }
  let hmac : String := g2.generateHmac g2.computerMove
  if ¬ (g2.isMoveValid userMove = true) then
    (g2, none)
  else
    (g2, some { hmacShown := hmac,
                result := determineWinner g2.moves userMove g2.computerMove,
                computerMove := g2.computerMove,
                hmacKey := g2.hmacKey })

/-- `new Set(moves).size` in JavaScript: the number of distinct elements. -/
def jsSetSize (moves : List String) : Nat :=
  moves.dedup.length

/-- The module entry of `game.js`: `moves = process.argv.slice(2)` is the
input; on `moves.length < 3 || moves.length % 2 !== 1 || new Set(moves).size
!== moves.length` the error message is printed and no `Game` is constructed
(`none`); otherwise `new Game(moves)` is constructed (with its two random
draws as explicit inputs) and the interaction loop starts. -/
def startGame (hmacFn : String → String → String) (moves : List String)
    (key : String) (draw : Nat) : Option Game :=
  if moves.length < 3 ∨ moves.length % 2 ≠ 1 ∨ jsSetSize moves ≠ moves.length then
    none
  else
    some (Game.init hmacFn moves key draw)

/-- A concrete injective stand-in for the HMAC primitive, used to evaluate the
protocol at concrete inputs (the claims under test concern the protocol's use
of the commitment, not SHA-256 itself). -/
def tagHmac (key move : String) : String :=
  String.append (String.append key ":") move

/-! ### Characterization of `determineWinner` on member moves -/

lemma jsIndexOf_of_mem {l : List String} {a : String} (h : a ∈ l) :
    jsIndexOf l a = (l.indexOf a : Int) := by
  simp [jsIndexOf, h]

lemma indexOf_lt_len {l : List String} {a : String} (h : a ∈ l) :
    l.indexOf a < l.length :=
  List.indexOf_lt_length.mpr h

/-- The source's cyclic-window test, over `ℕ`: the second argument's index `j`
lies in the `half` positions cyclically following `i` iff the cyclic distance
from `i + 1` to `j` is below `half`. -/
lemma window_iff {n i j half : ℕ} (hi : i < n) (hj : j < n) (hij : i ≠ j)
    (hhalf : half < n) :
    ((i + 1 ≤ j ∧ j ≤ i + half) ∨ (n ≤ i + half ∧ j ≤ (i + half) % n)) ↔
      (j + n - i - 1) % n < half := by
  rcases Nat.lt_or_ge (i + half) n with hw | hw
  · rw [Nat.mod_eq_of_lt hw]
    rcases Nat.lt_or_ge i j with hij2 | hij2
    · have hd : (j + n - i - 1) % n = j - i - 1 := by
        rw [Nat.mod_eq_sub_mod (by omega)]
        have he : j + n - i - 1 - n = j - i - 1 := by omega
        rw [he, Nat.mod_eq_of_lt (by omega)]
      rw [hd]; omega
    · have hd : (j + n - i - 1) % n = j + n - i - 1 := Nat.mod_eq_of_lt (by omega)
      rw [hd]; omega
  · have hm : (i + half) % n = i + half - n := by
      rw [Nat.mod_eq_sub_mod hw]
      exact Nat.mod_eq_of_lt (by omega)
    rw [hm]
    rcases Nat.lt_or_ge i j with hij2 | hij2
    · have hd : (j + n - i - 1) % n = j - i - 1 := by
        rw [Nat.mod_eq_sub_mod (by omega)]
        have he : j + n - i - 1 - n = j - i - 1 := by omega
        rw [he, Nat.mod_eq_of_lt (by omega)]
      rw [hd]; omega
    · have hd : (j + n - i - 1) % n = j + n - i - 1 := Nat.mod_eq_of_lt (by omega)
      rw [hd]; omega

/-- The cyclic-window test as it appears (over `ℤ`) in the unfolded body of
`determineWinner`, with `half = (n - 1) / 2`. -/
lemma window_iff_int {n i j : ℕ} (hi : i < n) (hj : j < n) (hij : i ≠ j) :
    (((i : ℤ) + 1 ≤ (j : ℤ) ∧ (j : ℤ) ≤ (i : ℤ) + (((n - 1) / 2 : ℕ) : ℤ)) ∨
      ((n : ℤ) ≤ (i : ℤ) + (((n - 1) / 2 : ℕ) : ℤ) ∧
        (j : ℤ) ≤ ((i : ℤ) + (((n - 1) / 2 : ℕ) : ℤ)).tmod (n : ℤ))) ↔
      (j + n - i - 1) % n < (n - 1) / 2 := by
  have h1 : ((i : ℤ) + (((n - 1) / 2 : ℕ) : ℤ)).tmod (n : ℤ) =
      (((i + (n - 1) / 2) % n : ℕ) : ℤ) := by
    rw [← Nat.cast_add, ← Int.ofNat_tmod]
  rw [h1, ← window_iff hi hj hij (show (n - 1) / 2 < n by omega)]
  constructor
  · rintro (⟨h2, h3⟩ | ⟨h2, h3⟩)
    · exact Or.inl ⟨by exact_mod_cast h2, by exact_mod_cast h3⟩
    · exact Or.inr ⟨by exact_mod_cast h2, by exact_mod_cast h3⟩
  · rintro (⟨h2, h3⟩ | ⟨h2, h3⟩)
    · exact Or.inl ⟨by exact_mod_cast h2, by exact_mod_cast h3⟩
    · exact Or.inr ⟨by exact_mod_cast h2, by exact_mod_cast h3⟩

/-- On two distinct member moves, `determineWinner` answers by comparing the
cyclic distance from the user's index to the computer's index with
`half = (n - 1) / 2`. -/
lemma determineWinner_eq_ite {moves : List String} {a b : String}
    (ha : a ∈ moves) (hb : b ∈ moves) (hab : a ≠ b) :
    determineWinner moves a b =
      if (moves.indexOf b + moves.length - moves.indexOf a - 1) % moves.length <
          (moves.length - 1) / 2 then "Computer wins!" else "You win!" := by
  have hi := indexOf_lt_len ha
  have hj := indexOf_lt_len hb
  have hij : moves.indexOf a ≠ moves.indexOf b := fun h =>
    hab ((List.indexOf_inj ha hb).mp h)
  have hn : 1 ≤ moves.length := by omega
  have hhalf : ((moves.length : ℤ) - 1).fdiv 2 =
      (((moves.length - 1) / 2 : ℕ) : ℤ) := by
    rw [Int.fdiv_eq_ediv _ (by norm_num)]
    omega
  simp only [determineWinner, jsIndexOf_of_mem ha, jsIndexOf_of_mem hb, if_neg hab, hhalf]
  split_ifs with h1 h2 h2
  · rfl
  · exact absurd ((window_iff_int hi hj hij).mp h1) h2
  · exact absurd ((window_iff_int hi hj hij).mpr h2) h1
  · rfl

/-- With `n` odd, the two distances from `i` to `j` and from `j` to `i` split
the `n - 1` non-self positions exactly in half: one is below `(n - 1) / 2` iff
the other is not. -/
lemma dist_compl {n i j : ℕ} (hi : i < n) (hj : j < n) (hij : i ≠ j)
    (hodd : n % 2 = 1) :
    (j + n - i - 1) % n < (n - 1) / 2 ↔ ¬ ((i + n - j - 1) % n < (n - 1) / 2) := by
  rcases Nat.lt_or_ge i j with h | h
  · have h1 : (j + n - i - 1) % n = j - i - 1 := by
      rw [Nat.mod_eq_sub_mod (by omega)]
      have he : j + n - i - 1 - n = j - i - 1 := by omega
      rw [he, Nat.mod_eq_of_lt (by omega)]
    have h2 : (i + n - j - 1) % n = i + n - j - 1 := Nat.mod_eq_of_lt (by omega)
    rw [h1, h2]; omega
  · have hlt : j < i := by omega
    have h1 : (j + n - i - 1) % n = j + n - i - 1 := Nat.mod_eq_of_lt (by omega)
    have h2 : (i + n - j - 1) % n = i - j - 1 := by
      rw [Nat.mod_eq_sub_mod (by omega)]
      have he : i + n - j - 1 - n = i - j - 1 := by omega
      rw [he, Nat.mod_eq_of_lt (by omega)]
    rw [h1, h2]; omega

/-- The `ℤ`-valued distance formula of the spec, reduced to the `ℕ`-valued
cyclic distance used by the window characterization. -/
lemma emod_dist {n i j : ℕ} (hi : i < n) (hj : j < n) :
    ((j : ℤ) - i - 1) % (n : ℤ) = (((j + n - i - 1) % n : ℕ) : ℤ) := by
  have e1 : (j : ℤ) - i - 1 + n = ((j + n - i - 1 : ℕ) : ℤ) := by omega
  rw [← Int.add_emod_self, e1, Int.ofNat_emod]

lemma half_cast {n : ℕ} (hn : 1 ≤ n) :
    ((n : ℤ) - 1) / 2 = (((n - 1) / 2 : ℕ) : ℤ) := by omega
example : determineResult ["rock", "paper", "scissors"] "rock" "scissors" = "Win" := by
  norm_num [determineResult, jsIndexOf, jsModQ, jsTrunc, List.indexOf, List.findIdx,
    List.findIdx.go]
  decide

/-! ### Claims C2, C3, C6, C10: the comparator -/

/-- C3: concrete scenarios for the classic 3-move set and the 5-move
generalization, with Win/Lose/Draw read as `determineWinner`'s
"You win!" / "Computer wins!" / "Draw". -/
theorem claim_C3_concrete_scenarios :
    determineWinner ["rock", "paper", "scissors"] "rock" "scissors" = "You win!" ∧
    determineWinner ["rock", "paper", "scissors"] "scissors" "rock" = "Computer wins!" ∧
    determineWinner ["rock", "paper", "scissors"] "rock" "paper" = "Computer wins!" ∧
    determineWinner ["rock", "paper", "scissors"] "rock" "rock" = "Draw" ∧
    determineWinner ["rock", "spock", "paper", "lizard", "scissors"] "rock" "scissors" =
      "You win!" ∧
    determineWinner ["rock", "spock", "paper", "lizard", "scissors"] "rock" "spock" =
      "Computer wins!" ∧
    determineWinner ["rock", "spock", "paper", "lizard", "scissors"] "spock" "rock" =
      "You win!" := by
  decide

/-- C2 (counterexample): at MoveSet [rock, paper, scissors] with a = rock
(i = 0) and b = paper (j = 1), the claim's formula ((j - i - 1) mod n) < 1
holds, yet `determineWinner` answers "Computer wins!", not "You win!" — the
claimed equivalence fails at this input. -/
theorem claim_C2_counterexample :
    ¬ (determineWinner ["rock", "paper", "scissors"] "rock" "paper" = "You win!" ↔
        ((["rock", "paper", "scissors"].indexOf "paper" : ℤ) -
            (["rock", "paper", "scissors"].indexOf "rock" : ℤ) - 1) %
            ((["rock", "paper", "scissors"].length : ℕ) : ℤ) <
          (((["rock", "paper", "scissors"].length : ℕ) : ℤ) - 1) / 2) := by
  decide

/-- C2 (amended): for every MoveSet of distinct moves with odd length n ≥ 3
and distinct member moves a, b at 0-based indices i, j, the comparator decides
that b (the second argument, the computer's move) beats a — i.e.
determineWinner(a, b) = "Computer wins!" — if and only if
((j - i - 1) mod n) < floor((n - 1) / 2). -/
theorem claim_C2_amended {moves : List String} {a b : String}
    (hnd : moves.Nodup) (hodd : moves.length % 2 = 1) (h3 : 3 ≤ moves.length)
    (ha : a ∈ moves) (hb : b ∈ moves) (hab : a ≠ b) :
    determineWinner moves a b = "Computer wins!" ↔
      ((moves.indexOf b : ℤ) - (moves.indexOf a : ℤ) - 1) % (moves.length : ℤ) <
        ((moves.length : ℤ) - 1) / 2 := by
  have hi := indexOf_lt_len ha
  have hj := indexOf_lt_len hb
  rw [determineWinner_eq_ite ha hb hab, emod_dist hi hj,
    half_cast (show 1 ≤ moves.length by omega), Nat.cast_lt]
  split_ifs with hc
  · simp [hc]
  · simp [hc]

/-- Witness for C2 (amended) at MoveSet [rock, paper, scissors],
a = rock, b = paper. -/
theorem claim_C2_amended_witness :
    determineWinner ["rock", "paper", "scissors"] "rock" "paper" = "Computer wins!" ↔
      ((["rock", "paper", "scissors"].indexOf "paper" : ℤ) -
          (["rock", "paper", "scissors"].indexOf "rock" : ℤ) - 1) %
          ((["rock", "paper", "scissors"].length : ℕ) : ℤ) <
        (((["rock", "paper", "scissors"].length : ℕ) : ℤ) - 1) / 2 :=
  claim_C2_amended (by decide) (by decide) (by decide) (by decide) (by decide) (by decide)

/-- C10: the implemented dominance direction — the first argument wins exactly
when the second argument's index lies in the floor((n - 1) / 2) positions
cyclically preceding the first's: determineWinner(a, b) = "You win!" iff
((i - j - 1) mod n) < (n - 1) / 2. -/
theorem claim_C10_dominance_direction {moves : List String} {a b : String}
    (hnd : moves.Nodup) (hodd : moves.length % 2 = 1) (h3 : 3 ≤ moves.length)
    (ha : a ∈ moves) (hb : b ∈ moves) (hab : a ≠ b) :
    determineWinner moves a b = "You win!" ↔
      ((moves.indexOf a : ℤ) - (moves.indexOf b : ℤ) - 1) % (moves.length : ℤ) <
        ((moves.length : ℤ) - 1) / 2 := by
  have hi := indexOf_lt_len ha
  have hj := indexOf_lt_len hb
  have hij : moves.indexOf a ≠ moves.indexOf b := fun h =>
    hab ((List.indexOf_inj ha hb).mp h)
  have hdc := dist_compl hi hj hij hodd
  rw [determineWinner_eq_ite ha hb hab, emod_dist hj hi,
    half_cast (show 1 ≤ moves.length by omega), Nat.cast_lt]
  split_ifs with hc
  · simp [hdc.mp hc]
  · have hcI : (moves.indexOf a + moves.length - moves.indexOf b - 1) % moves.length <
        (moves.length - 1) / 2 := by
      by_contra hno
      exact hc (hdc.mpr hno)
    simp [hcI]

/-- Witness for C10 at MoveSet [rock, paper, scissors], a = rock,
b = scissors. -/
theorem claim_C10_dominance_direction_witness :
    determineWinner ["rock", "paper", "scissors"] "rock" "scissors" = "You win!" ↔
      ((["rock", "paper", "scissors"].indexOf "rock" : ℤ) -
          (["rock", "paper", "scissors"].indexOf "scissors" : ℤ) - 1) %
          ((["rock", "paper", "scissors"].length : ℕ) : ℤ) <
        (((["rock", "paper", "scissors"].length : ℕ) : ℤ) - 1) / 2 :=
  claim_C10_dominance_direction (by decide) (by decide) (by decide) (by decide) (by decide)
    (by decide)

/-- C6: antisymmetry — for distinct member moves of a valid MoveSet, the two
ordered comparisons are opposite: the first argument wins one direction iff
the comparator declares the computer the winner in the other, so exactly one
direction wins and never both win or both lose. -/
theorem claim_C6_antisymmetry {moves : List String} {a b : String}
    (hnd : moves.Nodup) (hodd : moves.length % 2 = 1) (h3 : 3 ≤ moves.length)
    (ha : a ∈ moves) (hb : b ∈ moves) (hab : a ≠ b) :
    (determineWinner moves a b = "You win!" ↔
      determineWinner moves b a = "Computer wins!") ∧
      (determineWinner moves a b = "Computer wins!" ↔
        determineWinner moves b a = "You win!") := by
  have hi := indexOf_lt_len ha
  have hj := indexOf_lt_len hb
  have hij : moves.indexOf a ≠ moves.indexOf b := fun h =>
    hab ((List.indexOf_inj ha hb).mp h)
  have hdc := dist_compl hi hj hij hodd
  rw [determineWinner_eq_ite ha hb hab, determineWinner_eq_ite hb ha (Ne.symm hab)]
  by_cases hc : (moves.indexOf b + moves.length - moves.indexOf a - 1) % moves.length <
      (moves.length - 1) / 2
  · rw [if_pos hc, if_neg (hdc.mp hc)]
    exact ⟨by decide, by decide⟩
  · have hcI : (moves.indexOf a + moves.length - moves.indexOf b - 1) % moves.length <
        (moves.length - 1) / 2 := by
      by_contra hno
      exact hc (hdc.mpr hno)
    rw [if_neg hc, if_pos hcI]
    exact ⟨by decide, by decide⟩

/-- Witness for C6 at MoveSet [rock, paper, scissors], a = rock, b = paper. -/
theorem claim_C6_antisymmetry_witness :
    (determineWinner ["rock", "paper", "scissors"] "rock" "paper" = "You win!" ↔
      determineWinner ["rock", "paper", "scissors"] "paper" "rock" = "Computer wins!") ∧
      (determineWinner ["rock", "paper", "scissors"] "rock" "paper" = "Computer wins!" ↔
        determineWinner ["rock", "paper", "scissors"] "paper" "rock" = "You win!") :=
  claim_C6_antisymmetry (by decide) (by decide) (by decide) (by decide) (by decide) (by decide)

/-! ### Claims C1, C4, C5: the round protocol -/

/-- C1 (code bug, evaluated at the failing input): `play` re-draws the
computer's move before resolving. With moves [rock, paper, scissors], key
"secret", initial draw rock, the menu shows the commitment of rock; the player
submits rock and `play` re-draws paper, so the disclosed key and move recommit
to the commitment of paper, which differs from the commitment shown before the
player's move — the fairness-replay equation fails. -/
theorem claim_C1_fairness_replay_bug :
    (Game.init tagHmac ["rock", "paper", "scissors"] "secret" 0).menuHmac =
      tagHmac "secret" "rock" ∧
    ((Game.init tagHmac ["rock", "paper", "scissors"] "secret" 0).play "rock" 1).2 =
      some { hmacShown := tagHmac "secret" "paper", result := "Computer wins!",
             computerMove := "paper", hmacKey := "secret" } ∧
    tagHmac "secret" "paper" ≠
      (Game.init tagHmac ["rock", "paper", "scissors"] "secret" 0).menuHmac :=
  ⟨by decide, by decide, by decide⟩

/-- C4 (code bug, evaluated at the failing input): `play` mutates
`this.computerMove` before checking validity, so a rejected submission
("banana", with re-draw paper) leaves the submission rejected (`none`) but the
round state changed: the computer's move goes from rock to paper and the menu
commitment changes with it. -/
theorem claim_C4_invalid_submission_bug :
    ((Game.init tagHmac ["rock", "paper", "scissors"] "secret" 0).play "banana" 1).2 =
      none ∧
    (Game.init tagHmac ["rock", "paper", "scissors"] "secret" 0).computerMove = "rock" ∧
    ((Game.init tagHmac ["rock", "paper", "scissors"] "secret" 0).play "banana" 1).1.computerMove =
      "paper" ∧
    ((Game.init tagHmac ["rock", "paper", "scissors"] "secret" 0).play "banana" 1).1.menuHmac ≠
      (Game.init tagHmac ["rock", "paper", "scissors"] "secret" 0).menuHmac :=
  ⟨by decide, by decide, by decide, by decide⟩

/-- C5 (code bug): the HMAC key is generated once in the constructor and
`play` never refreshes it — the key after any `play` call equals the key
before it, and a concrete two-round run discloses the same key "secret" in
both rounds. -/
theorem claim_C5_key_reuse_bug :
    (∀ (g : Game) (userMove : String) (redraw : ℕ),
        ((g.play userMove redraw).1).hmacKey = g.hmacKey) ∧
    ((((Game.init tagHmac ["rock", "paper", "scissors"] "secret" 0).play "rock" 1).1.play
        "paper" 2).2.map (fun r => r.hmacKey) = some "secret" ∧
      ((Game.init tagHmac ["rock", "paper", "scissors"] "secret" 0).play "rock" 1).2.map
        (fun r => r.hmacKey) = some "secret") := by
  refine ⟨fun g userMove redraw => ?_, by decide, by decide⟩
  simp only [Game.play]
  split <;> rfl

/-! ### Claim C8: configuration validation -/

/-- C8: the command-line validation refuses (no `Game` constructed) exactly
the move lists of even length, or length < 3, or with duplicates, and starts
the game exactly for injective odd-length lists of at least 3 moves. -/
theorem claim_C8_configuration_validation
    (hmacFn : String → String → String) (moves : List String)
    (key : String) (draw : ℕ) :
    (startGame hmacFn moves key draw = none ↔
      (Even moves.length ∨ moves.length < 3 ∨ ¬ moves.Nodup)) ∧
    ((startGame hmacFn moves key draw).isSome = true ↔
      (moves.Nodup ∧ Odd moves.length ∧ 3 ≤ moves.length)) := by
  have hd : jsSetSize moves = moves.length ↔ moves.Nodup := by
    constructor
    · intro h
      have hs := List.dedup_sublist moves
      have he : moves.dedup = moves := hs.eq_of_length h
      rw [← he]
      exact List.nodup_dedup moves
    · intro h
      rw [jsSetSize, List.dedup_eq_self.mpr h]
  have hnone : startGame hmacFn moves key draw = none ↔
      (moves.length < 3 ∨ moves.length % 2 ≠ 1 ∨ jsSetSize moves ≠ moves.length) := by
    unfold startGame
    split_ifs with hc
    · exact iff_of_true rfl hc
    · exact iff_of_false (by simp) hc
  have hiff : (moves.length < 3 ∨ moves.length % 2 ≠ 1 ∨ jsSetSize moves ≠ moves.length) ↔
      (Even moves.length ∨ moves.length < 3 ∨ ¬ moves.Nodup) := by
    rw [Nat.even_iff]
    constructor
    · rintro (h | h | h)
      · exact Or.inr (Or.inl h)
      · exact Or.inl (by omega)
      · exact Or.inr (Or.inr fun hn => h (hd.mpr hn))
    · rintro (h | h | h)
      · exact Or.inr (Or.inl (by omega))
      · exact Or.inl h
      · exact Or.inr (Or.inr fun he => h (hd.mp he))
  refine ⟨hnone.trans hiff, ?_⟩
  rw [Option.isSome_iff_ne_none, Ne, hnone.trans hiff, Nat.even_iff, Nat.odd_iff]
  push_neg
  constructor
  · rintro ⟨h1, h2, h3⟩
    exact ⟨h3, by omega, by omega⟩
  · rintro ⟨h1, h2, h3⟩
    exact ⟨by omega, by omega, h1⟩

/-! ### Claim C7: balance -/

lemma determineWinner_self (moves : List String) (a : String) :
    determineWinner moves a a = "Draw" := by
  simp [determineWinner]

/-- `ℕ`-level characterization of "You win!" on distinct members, odd length. -/
lemma win_iff_nat {moves : List String} {a b : String}
    (hodd : moves.length % 2 = 1) (ha : a ∈ moves) (hb : b ∈ moves) (hab : a ≠ b) :
    determineWinner moves a b = "You win!" ↔
      (moves.indexOf a + moves.length - moves.indexOf b - 1) % moves.length <
        (moves.length - 1) / 2 := by
  have hi := indexOf_lt_len ha
  have hj := indexOf_lt_len hb
  have hij : moves.indexOf a ≠ moves.indexOf b := fun h =>
    hab ((List.indexOf_inj ha hb).mp h)
  have hdc := dist_compl hi hj hij hodd
  rw [determineWinner_eq_ite ha hb hab]
  split_ifs with hc
  · simp [hdc.mp hc]
  · have hcI : (moves.indexOf a + moves.length - moves.indexOf b - 1) % moves.length <
        (moves.length - 1) / 2 := by
      by_contra hno
      exact hc (hdc.mpr hno)
    simp [hcI]

/-- `ℕ`-level characterization of "Computer wins!" on distinct members. -/
lemma cw_iff_nat {moves : List String} {a b : String}
    (ha : a ∈ moves) (hb : b ∈ moves) (hab : a ≠ b) :
    determineWinner moves a b = "Computer wins!" ↔
      (moves.indexOf b + moves.length - moves.indexOf a - 1) % moves.length <
        (moves.length - 1) / 2 := by
  rw [determineWinner_eq_ite ha hb hab]
  split_ifs with hc
  · exact iff_of_true rfl hc
  · exact iff_of_false (by decide) hc

/-- A `countP` over a duplicate-free move list equals the number of positions
of `range n` satisfying the corresponding index predicate. -/
lemma countP_eq_card_filter_range {moves : List String} (hnd : moves.Nodup)
    (p : String → Bool) (q : ℕ → Prop) [DecidablePred q]
    (hpq : ∀ k, k < moves.length → (p (moves.getD k "") = true ↔ q k)) :
    moves.countP p = ((Finset.range moves.length).filter q).card := by
  rw [List.countP_eq_length_filter, ← List.toFinset_card_of_nodup (hnd.filter p),
    List.toFinset_filter]
  refine Finset.card_nbij' (fun x => moves.indexOf x) (fun k => moves.getD k "")
    ?_ ?_ ?_ ?_
  · intro x hx
    rw [Finset.mem_filter, List.mem_toFinset] at hx
    rw [Finset.mem_filter, Finset.mem_range]
    have hilt := indexOf_lt_len hx.1
    refine ⟨hilt, ?_⟩
    have hg : moves.getD (moves.indexOf x) "" = x := by
      rw [List.getD_eq_getElem _ _ hilt]
      exact List.getElem_indexOf hilt
    rw [← hpq _ hilt, hg]
    exact hx.2
  · intro k hk
    rw [Finset.mem_filter, Finset.mem_range] at hk
    rw [Finset.mem_filter, List.mem_toFinset]
    have hmem : moves.getD k "" ∈ moves := by
      rw [List.getD_eq_getElem _ _ hk.1]
      exact List.getElem_mem hk.1
    exact ⟨hmem, (hpq _ hk.1).mpr hk.2⟩
  · intro x hx
    rw [Finset.mem_filter, List.mem_toFinset] at hx
    have hilt := indexOf_lt_len hx.1
    show moves.getD (moves.indexOf x) "" = x
    rw [List.getD_eq_getElem _ _ hilt]
    exact List.getElem_indexOf hilt
  · intro k hk
    rw [Finset.mem_filter, Finset.mem_range] at hk
    show moves.indexOf (moves.getD k "") = k
    rw [List.getD_eq_getElem _ _ hk.1]
    exact List.indexOf_getElem hnd k hk.1

/-- `k ↦ (i + n - k - 1) % n` is an involution on positions below `n`. -/
lemma dist_invol {n i k : ℕ} (hi : i < n) (hk : k < n) :
    (i + n - ((i + n - k - 1) % n) - 1) % n = k := by
  rcases Nat.lt_or_ge k i with h | h
  · have h1 : (i + n - k - 1) % n = i - k - 1 := by
      rw [Nat.mod_eq_sub_mod (by omega)]
      have he : i + n - k - 1 - n = i - k - 1 := by omega
      rw [he, Nat.mod_eq_of_lt (by omega)]
    rw [h1]
    have he2 : i + n - (i - k - 1) - 1 = k + n := by omega
    rw [he2, Nat.add_mod_right]
    exact Nat.mod_eq_of_lt hk
  · have h1 : (i + n - k - 1) % n = i + n - k - 1 := Nat.mod_eq_of_lt (by omega)
    rw [h1]
    have he2 : i + n - (i + n - k - 1) - 1 = k := by omega
    rw [he2]
    exact Nat.mod_eq_of_lt hk

lemma g_left {n i k : ℕ} (hi : i < n) (hk : k < n) :
    (i + 1 + ((k + n - i - 1) % n)) % n = k := by
  rcases Nat.lt_or_ge i k with h | h
  · have h1 : (k + n - i - 1) % n = k - i - 1 := by
      rw [Nat.mod_eq_sub_mod (by omega)]
      have he : k + n - i - 1 - n = k - i - 1 := by omega
      rw [he, Nat.mod_eq_of_lt (by omega)]
    rw [h1]
    have he2 : i + 1 + (k - i - 1) = k := by omega
    rw [he2]
    exact Nat.mod_eq_of_lt hk
  · have h1 : (k + n - i - 1) % n = k + n - i - 1 := Nat.mod_eq_of_lt (by omega)
    rw [h1]
    have he2 : i + 1 + (k + n - i - 1) = k + n := by omega
    rw [he2, Nat.add_mod_right]
    exact Nat.mod_eq_of_lt hk

lemma g_right {n i m : ℕ} (hi : i < n) (hm : m < n) :
    ((i + 1 + m) % n + n - i - 1) % n = m := by
  rcases Nat.lt_or_ge (i + 1 + m) n with h | h
  · rw [Nat.mod_eq_of_lt h]
    have he : i + 1 + m + n - i - 1 = m + n := by omega
    rw [he, Nat.add_mod_right]
    exact Nat.mod_eq_of_lt hm
  · have h1 : (i + 1 + m) % n = i + 1 + m - n := by
      rw [Nat.mod_eq_sub_mod h]
      exact Nat.mod_eq_of_lt (by omega)
    rw [h1]
    have he : i + 1 + m - n + n - i - 1 = m := by omega
    rw [he]
    exact Nat.mod_eq_of_lt hm

/-- Exactly `(n - 1) / 2` positions lie in the half-window cyclically
preceding position `i`. -/
lemma card_win_positions {n i : ℕ} (hi : i < n) (h3 : 3 ≤ n) :
    ((Finset.range n).filter
        (fun k => (i + n - k - 1) % n < (n - 1) / 2)).card = (n - 1) / 2 := by
  conv_rhs => rw [← Finset.card_range ((n - 1) / 2)]
  refine Finset.card_nbij' (fun k => (i + n - k - 1) % n)
    (fun m => (i + n - m - 1) % n) ?_ ?_ ?_ ?_
  · intro k hk
    rw [Finset.mem_filter, Finset.mem_range] at hk
    rw [Finset.mem_range]
    exact hk.2
  · intro m hm
    rw [Finset.mem_range] at hm
    rw [Finset.mem_filter, Finset.mem_range]
    have hmn : m < n := by omega
    refine ⟨Nat.mod_lt _ (by omega), ?_⟩
    rw [dist_invol hi hmn]
    exact hm
  · intro k hk
    rw [Finset.mem_filter, Finset.mem_range] at hk
    exact dist_invol hi hk.1
  · intro m hm
    rw [Finset.mem_range] at hm
    exact dist_invol hi (by omega)

/-- Exactly `(n - 1) / 2` positions lie in the half-window cyclically
following position `i`. -/
lemma card_lose_positions {n i : ℕ} (hi : i < n) (h3 : 3 ≤ n) :
    ((Finset.range n).filter
        (fun k => (k + n - i - 1) % n < (n - 1) / 2)).card = (n - 1) / 2 := by
  conv_rhs => rw [← Finset.card_range ((n - 1) / 2)]
  refine Finset.card_nbij' (fun k => (k + n - i - 1) % n)
    (fun m => (i + 1 + m) % n) ?_ ?_ ?_ ?_
  · intro k hk
    rw [Finset.mem_filter, Finset.mem_range] at hk
    rw [Finset.mem_range]
    exact hk.2
  · intro m hm
    rw [Finset.mem_range] at hm
    rw [Finset.mem_filter, Finset.mem_range]
    have hmn : m < n := by omega
    refine ⟨Nat.mod_lt _ (by omega), ?_⟩
    rw [g_right hi hmn]
    exact hm
  · intro k hk
    rw [Finset.mem_filter, Finset.mem_range] at hk
    exact g_left hi hk.1
  · intro m hm
    rw [Finset.mem_range] at hm
    exact g_right hi (by omega)

/-- C7: balance — in a valid MoveSet every move beats exactly (n-1)/2 of the
moves and loses to exactly (n-1)/2 of them (the move itself contributes only
a Draw, so counting over the whole list counts the other moves). -/
theorem claim_C7_balance {moves : List String} {a : String}
    (hnd : moves.Nodup) (hodd : moves.length % 2 = 1) (h3 : 3 ≤ moves.length)
    (ha : a ∈ moves) :
    moves.countP (fun x => decide (determineWinner moves a x = "You win!")) =
      (moves.length - 1) / 2 ∧
    moves.countP (fun x => decide (determineWinner moves a x = "Computer wins!")) =
      (moves.length - 1) / 2 := by
  have hi := indexOf_lt_len ha
  have hselfd : (moves.indexOf a + moves.length - moves.indexOf a - 1) % moves.length =
      moves.length - 1 := by
    have he : moves.indexOf a + moves.length - moves.indexOf a - 1 = moves.length - 1 := by
      omega
    rw [he]
    exact Nat.mod_eq_of_lt (by omega)
  constructor
  · rw [countP_eq_card_filter_range hnd _
      (fun k => (moves.indexOf a + moves.length - k - 1) % moves.length <
        (moves.length - 1) / 2) ?_]
    · exact card_win_positions hi h3
    · intro k hk
      rw [decide_eq_true_eq]
      by_cases hak : a = moves.getD k ""
      · have hki : moves.indexOf a = k := by
          rw [hak, List.getD_eq_getElem _ _ hk]
          exact List.indexOf_getElem hnd k hk
        rw [← hak, determineWinner_self, ← hki]
        simp only [hselfd]
        exact iff_of_false (by decide) (by omega)
      · have hbm : moves.getD k "" ∈ moves := by
          rw [List.getD_eq_getElem _ _ hk]
          exact List.getElem_mem hk
        have hbid : moves.indexOf (moves.getD k "") = k := by
          rw [List.getD_eq_getElem _ _ hk]
          exact List.indexOf_getElem hnd k hk
        rw [win_iff_nat hodd ha hbm hak, hbid]
  · rw [countP_eq_card_filter_range hnd _
      (fun k => (k + moves.length - moves.indexOf a - 1) % moves.length <
        (moves.length - 1) / 2) ?_]
    · exact card_lose_positions hi h3
    · intro k hk
      rw [decide_eq_true_eq]
      by_cases hak : a = moves.getD k ""
      · have hki : moves.indexOf a = k := by
          rw [hak, List.getD_eq_getElem _ _ hk]
          exact List.indexOf_getElem hnd k hk
        rw [← hak, determineWinner_self, ← hki]
        simp only [hselfd]
        exact iff_of_false (by decide) (by omega)
      · have hbm : moves.getD k "" ∈ moves := by
          rw [List.getD_eq_getElem _ _ hk]
          exact List.getElem_mem hk
        have hbid : moves.indexOf (moves.getD k "") = k := by
          rw [List.getD_eq_getElem _ _ hk]
          exact List.indexOf_getElem hnd k hk
        rw [cw_iff_nat ha hbm hak, hbid]

/-- Witness for C7 at MoveSet [rock, paper, scissors], a = rock. -/
theorem claim_C7_balance_witness :
    List.countP (fun x => decide (determineWinner ["rock", "paper", "scissors"] "rock" x =
        "You win!")) ["rock", "paper", "scissors"] =
      (["rock", "paper", "scissors"].length - 1) / 2 ∧
    List.countP (fun x => decide (determineWinner ["rock", "paper", "scissors"] "rock" x =
        "Computer wins!")) ["rock", "paper", "scissors"] =
      (["rock", "paper", "scissors"].length - 1) / 2 :=
  claim_C7_balance (by decide) (by decide) (by decide) (by decide)

/-! ### Claim C9: help table agrees with the live comparator -/

/-- JavaScript `%` on a nonnegative integral rational by a natural number is
the `ℕ` remainder. -/
lemma jsModQ_natCast (m n : ℕ) :
    jsModQ (m : ℚ) (n : ℚ) = ((m % n : ℕ) : ℚ) := by
  have h1 : ((m : ℚ)) = (((m : ℤ)) : ℚ) := by push_cast; ring
  have hfl : ⌊((m : ℚ) / (n : ℚ))⌋ = ((m / n : ℕ) : ℤ) := by
    rw [h1, Rat.floor_intCast_div_natCast]
    exact (Int.ofNat_ediv m n).symm
  have htr : jsTrunc ((m : ℚ) / (n : ℚ)) = ((m / n : ℕ) : ℤ) := by
    rw [jsTrunc, if_pos (div_nonneg (Nat.cast_nonneg m) (Nat.cast_nonneg n))]
    exact hfl
  simp only [jsModQ, htr, Int.cast_natCast]
  have hmd : ((m % n : ℕ) : ℚ) + (n : ℚ) * ((m / n : ℕ) : ℚ) = (m : ℚ) := by
    exact_mod_cast congrArg (fun t : ℕ => (t : ℚ)) (Nat.mod_add_div m n)
  linarith

/-- The cyclic-window test as it appears (over `ℚ`) in the unfolded body of
`determineResult`, for odd `n`. -/
lemma window_iff_rat {n i j : ℕ} (hi : i < n) (hj : j < n) (hij : i ≠ j)
    (hodd : n % 2 = 1) :
    (((i : ℚ) + 1 ≤ (j : ℚ) ∧ (j : ℚ) ≤ (i : ℚ) + ((n : ℚ) - 1) / 2) ∨
      ((n : ℚ) ≤ (i : ℚ) + ((n : ℚ) - 1) / 2 ∧
        (j : ℚ) ≤ jsModQ ((i : ℚ) + ((n : ℚ) - 1) / 2) (n : ℚ))) ↔
      (j + n - i - 1) % n < (n - 1) / 2 := by
  have hq : ((n : ℚ) - 1) / 2 = (((n - 1) / 2 : ℕ) : ℚ) := by
    generalize hgen : (n - 1) / 2 = h
    have hn2 : (n : ℚ) = 2 * (h : ℚ) + 1 := by
      have he : n = 2 * h + 1 := by omega
      rw [he]
      push_cast
      ring
    rw [hn2]
    ring
  rw [hq]
  have hsum : ((i : ℚ) + (((n - 1) / 2 : ℕ) : ℚ)) = (((i + (n - 1) / 2 : ℕ)) : ℚ) := by
    push_cast
    ring
  rw [hsum, jsModQ_natCast]
  rw [← window_iff hi hj hij (show (n - 1) / 2 < n by omega)]
  constructor
  · rintro (⟨h2, h3⟩ | ⟨h2, h3⟩)
    · exact Or.inl ⟨by exact_mod_cast h2, by exact_mod_cast h3⟩
    · exact Or.inr ⟨by exact_mod_cast h2, by exact_mod_cast h3⟩
  · rintro (⟨h2, h3⟩ | ⟨h2, h3⟩)
    · exact Or.inl ⟨by exact_mod_cast h2, by exact_mod_cast h3⟩
    · exact Or.inr ⟨by exact_mod_cast h2, by exact_mod_cast h3⟩

/-- On two distinct member moves of an odd-length list, `determineResult`
answers by the same cyclic-distance comparison as `determineWinner`. -/
lemma determineResult_eq_ite {moves : List String} {a b : String}
    (hodd : moves.length % 2 = 1) (ha : a ∈ moves) (hb : b ∈ moves) (hab : a ≠ b) :
    determineResult moves a b =
      if (moves.indexOf b + moves.length - moves.indexOf a - 1) % moves.length <
          (moves.length - 1) / 2 then "Lose" else "Win" := by
  have hi := indexOf_lt_len ha
  have hj := indexOf_lt_len hb
  have hij : moves.indexOf a ≠ moves.indexOf b := fun h =>
    hab ((List.indexOf_inj ha hb).mp h)
  simp only [determineResult, jsIndexOf_of_mem ha, jsIndexOf_of_mem hb, if_neg hab,
    Int.cast_natCast]
  split_ifs with h1 h2 h2
  · rfl
  · exact absurd ((window_iff_rat hi hj hij hodd).mp h1) h2
  · exact absurd ((window_iff_rat hi hj hij hodd).mpr h2) h1
  · rfl

/-- C9: for every valid MoveSet and every ordered pair of member moves, the
help table's entry agrees with the live comparator —
`HelpTableGenerator.determineResult` answers "Win" / "Lose" / "Draw" exactly
when `MoveRules.determineWinner` answers "You win!" / "Computer wins!" /
"Draw" respectively. -/
theorem claim_C9_help_table_consistency {moves : List String} {a b : String}
    (hnd : moves.Nodup) (hodd : moves.length % 2 = 1) (h3 : 3 ≤ moves.length)
    (ha : a ∈ moves) (hb : b ∈ moves) :
    (determineResult moves a b = "Win" ↔ determineWinner moves a b = "You win!") ∧
    (determineResult moves a b = "Lose" ↔ determineWinner moves a b = "Computer wins!") ∧
    (determineResult moves a b = "Draw" ↔ determineWinner moves a b = "Draw") := by
  by_cases hab : a = b
  · subst hab
    rw [determineWinner_self]
    have hr : determineResult moves a a = "Draw" := by
      simp [determineResult]
    rw [hr]
    exact ⟨by decide, by decide, by decide⟩
  · rw [determineWinner_eq_ite ha hb hab, determineResult_eq_ite hodd ha hb hab]
    split_ifs with hc
    · exact ⟨by decide, by decide, by decide⟩
    · exact ⟨by decide, by decide, by decide⟩

/-- Witness for C9 at MoveSet [rock, paper, scissors], a = rock, b = paper. -/
theorem claim_C9_help_table_consistency_witness :
    (determineResult ["rock", "paper", "scissors"] "rock" "paper" = "Win" ↔
      determineWinner ["rock", "paper", "scissors"] "rock" "paper" = "You win!") ∧
    (determineResult ["rock", "paper", "scissors"] "rock" "paper" = "Lose" ↔
      determineWinner ["rock", "paper", "scissors"] "rock" "paper" = "Computer wins!") ∧
    (determineResult ["rock", "paper", "scissors"] "rock" "paper" = "Draw" ↔
      determineWinner ["rock", "paper", "scissors"] "rock" "paper" = "Draw") :=
  claim_C9_help_table_consistency (by decide) (by decide) (by decide) (by decide) (by decide)
